import Mathlib

/-!
Shallow embedding of the `polish_notation` Rust library (src/lib.rs), a
stack-based evaluator for arithmetic expressions in Polish form.

Modelling conventions:
* Rust `&str` is modelled as `List Char`; concrete inputs in theorem
  statements are written `("...").toList`.
* Rust `f64` is modelled by `F64`: an exact rational for finite values,
  plus the special values `inf`, `neginf` and `nan`.  Signed zero and
  rounding are not modelled; every finite computation appearing in the
  claims is exact in IEEE double precision (small integers, halves), and
  the special-value cases the claims exercise (division and modulo by
  zero) follow the IEEE rules.  Overflow of huge decimal literals to
  infinity is likewise not modelled.
* The Rust `Vec<f64>` operand stack (push at the end, read and drain at
  indices `len-1`, `len-2`) is modelled as a Lean list whose HEAD is the
  end of the vector: `operands[len-1]` is the head, `operands[len-2]` the
  second element, `drain(len-2..len)` drops the first two, `push` conses.
* Rust `split_whitespace` (split on whitespace, dropping empty pieces) is
  `splitWhitespace` below, using `Char.isWhitespace`; after validation the
  only whitespace character that can occur is the space.
* Rust `str::parse::<f64>()` is modelled by `parseF64` for the token
  shapes reachable in `pn`: an optional sign followed by a decimal
  mantissa.  Letter forms (`inf`, `nan`, exponents) cannot pass the
  character validation that precedes every `parse` call in `pn`, so they
  are not modelled.
* `syntax_check` from the source is named `validate` here (the original
  name is unavailable); `pn`, `calculate`, `parse_token`,
  `is_exoression`, `is_unavailable_character` and the misspelled
  constructor `NotEnteredExoression` keep the source spelling.
-/

deriving instance DecidableEq for Except

namespace Polish

/-- The error enumeration `PolishError` of src/lib.rs (lines 30-36),
including the source's misspelled `NotEnteredExoression`. -/
inductive PolishError where
  | FailedCalculate
  | NotEnoughOperands
  | UseUnavailableCharacter
  | NotEnteredExoression
deriving DecidableEq, Repr

/-- The `fmt::Display` implementation for `PolishError` (lines 37-46),
as a pure function from error kind to its fixed message. -/
def PolishError.display : PolishError → String
  | PolishError.FailedCalculate => "failed calculate"
  | PolishError.NotEnoughOperands => "not enough operands"
  | PolishError.UseUnavailableCharacter => "use unavailable character"
  | PolishError.NotEnteredExoression => "not entered exoression"

/-- Idealized model of Rust `f64`: exact rationals plus the special
values.  Negative zero is identified with zero. -/
inductive F64 where
  | fin (q : ℚ)
  | inf
  | neginf
  | nan
deriving DecidableEq, Repr

/-- IEEE negation on the model. -/
def F64.neg : F64 → F64
  | F64.fin q => F64.fin (-q)
  | F64.inf => F64.neginf
  | F64.neginf => F64.inf
  | F64.nan => F64.nan

/-- IEEE addition on the model (exact on finite values). -/
def F64.add : F64 → F64 → F64
  | F64.nan, _ => F64.nan
  | _, F64.nan => F64.nan
  | F64.fin a, F64.fin b => F64.fin (a + b)
  | F64.fin _, F64.inf => F64.inf
  | F64.fin _, F64.neginf => F64.neginf
  | F64.inf, F64.fin _ => F64.inf
  | F64.inf, F64.inf => F64.inf
  | F64.inf, F64.neginf => F64.nan
  | F64.neginf, F64.fin _ => F64.neginf
  | F64.neginf, F64.inf => F64.nan
  | F64.neginf, F64.neginf => F64.neginf

/-- IEEE subtraction: `a - b = a + (-b)`. -/
def F64.sub (a b : F64) : F64 := F64.add a (F64.neg b)

/-- IEEE multiplication on the model (exact on finite values). -/
def F64.mul : F64 → F64 → F64
  | F64.nan, _ => F64.nan
  | _, F64.nan => F64.nan
  | F64.fin a, F64.fin b => F64.fin (a * b)
  | F64.fin a, F64.inf =>
      if 0 < a then F64.inf else if a < 0 then F64.neginf else F64.nan
  | F64.fin a, F64.neginf =>
      if 0 < a then F64.neginf else if a < 0 then F64.inf else F64.nan
  | F64.inf, F64.fin b =>
      if 0 < b then F64.inf else if b < 0 then F64.neginf else F64.nan
  | F64.neginf, F64.fin b =>
      if 0 < b then F64.neginf else if b < 0 then F64.inf else F64.nan
  | F64.inf, F64.inf => F64.inf
  | F64.inf, F64.neginf => F64.neginf
  | F64.neginf, F64.inf => F64.neginf
  | F64.neginf, F64.neginf => F64.inf

/-- IEEE division on the model: division of a nonzero finite value by
zero yields a signed infinity and `0 / 0` yields `nan`; no error is ever
produced. -/
def F64.div : F64 → F64 → F64
  | F64.nan, _ => F64.nan
  | _, F64.nan => F64.nan
  | F64.fin a, F64.fin b =>
      if b = 0 then
        if 0 < a then F64.inf else if a < 0 then F64.neginf else F64.nan
      else F64.fin (a / b)
  | F64.fin _, F64.inf => F64.fin 0
  | F64.fin _, F64.neginf => F64.fin 0
  | F64.inf, F64.fin b => if 0 ≤ b then F64.inf else F64.neginf
  | F64.neginf, F64.fin b => if 0 ≤ b then F64.neginf else F64.inf
  | F64.inf, F64.inf => F64.nan
  | F64.inf, F64.neginf => F64.nan
  | F64.neginf, F64.inf => F64.nan
  | F64.neginf, F64.neginf => F64.nan

/-- Truncation toward zero of a rational, as an integer. -/
def ratTrunc (q : ℚ) : ℤ := Int.tdiv q.num (q.den : ℤ)

/-- Rust's `%` on `f64` (remainder with the sign of the dividend):
`a % b = a - b * trunc(a / b)`; modulo by zero yields `nan`. -/
def F64.rem : F64 → F64 → F64
  | F64.nan, _ => F64.nan
  | _, F64.nan => F64.nan
  | F64.fin a, F64.fin b =>
      if b = 0 then F64.nan
      else F64.fin (a - b * (ratTrunc (a / b) : ℚ))
  | F64.fin a, F64.inf => F64.fin a
  | F64.fin a, F64.neginf => F64.fin a
  | F64.inf, _ => F64.nan
  | F64.neginf, _ => F64.nan

/-- The token classification `TokenKind` of src/lib.rs (lines 48-51). -/
inductive TokenKind where
  | Operator (s : List Char)
  | Operand (v : F64)
deriving DecidableEq, Repr

/-- `is_exoression` (lines 53-55): the input is non-empty. -/
def is_exoression (exoression : List Char) : Bool :=
  !exoression.isEmpty

/-- The character class admitted by the validation regex
`[^+\-*\/%^1234567890 ]` (line 59): the five operator symbols, the caret,
the ten digits and the space. -/
def availableChar (c : Char) : Bool :=
  ['+', '-', '*', '/', '%', '^', '1', '2', '3', '4', '5', '6', '7', '8',
    '9', '0', ' '].contains c

/-- `is_unavailable_character` (lines 57-61): the regex matches, i.e. some
character of the string lies outside `availableChar`. -/
def is_unavailable_character (checked_string : List Char) : Bool :=
  checked_string.any (fun c => !availableChar c)

/-- `syntax_check` of src/lib.rs (lines 63-71), renamed `validate` (the
spec's §4.1 name): emptiness is tested first, then the character set. -/
def validate (exoression : List Char) : Except PolishError Unit :=
  if !is_exoression exoression then
    Except.error PolishError.NotEnteredExoression
  else if is_unavailable_character exoression then
    Except.error PolishError.UseUnavailableCharacter
  else Except.ok ()

/-- Leading sign of a numeric literal: `-` negative, `+` positive,
anything else unsigned. -/
def parseSign : List Char → Bool × List Char
  | '-' :: cs => (true, cs)
  | '+' :: cs => (false, cs)
  | cs => (false, cs)

/-- Value of a digit string read in base 10. -/
def digitsToNat (ds : List Char) : ℕ :=
  ds.foldl (fun acc c => 10 * acc + (c.toNat - 48)) 0

/-- Decimal mantissa: digits, optionally a point and more digits, with at
least one digit overall and nothing left over. -/
def parseMantissa (cs : List Char) : Option ℚ :=
  match cs.dropWhile Char.isDigit, cs.takeWhile Char.isDigit with
  | [], ds => if ds = [] then none else some ((digitsToNat ds : ℚ))
  | '.' :: rest2, ds =>
      if rest2.dropWhile Char.isDigit = [] ∧ ¬(ds = [] ∧ rest2 = []) then
        some ((digitsToNat ds : ℚ) +
          (digitsToNat (rest2.takeWhile Char.isDigit) : ℚ) /
            ((10 : ℚ) ^ (rest2.takeWhile Char.isDigit).length))
      else none
  | _, _ => none

/-- Model of Rust `str::parse::<f64>()` on the token shapes reachable in
`pn` (see the file header): an optional sign then a decimal mantissa,
consuming the whole token, exactly valued. -/
def parseF64 (w : List Char) : Option F64 :=
  match parseMantissa (parseSign w).2 with
  | some q => some (F64.fin (if (parseSign w).1 then -q else q))
  | none => none

/-- `parse_token` of src/lib.rs (lines 73-86): numeric parse first, else
an operator when every character is available, else the character
error. -/
def parse_token (word : List Char) : Except PolishError TokenKind :=
  match parseF64 word with
  | some v => Except.ok (TokenKind.Operand v)
  | none =>
      if !is_unavailable_character word then
        Except.ok (TokenKind.Operator word)
      else Except.error PolishError.UseUnavailableCharacter

/-- `calculate` of src/lib.rs (lines 88-97): the five recognized operator
symbols, anything else is `FailedCalculate`. -/
def calculate (a b : F64) (ops : List Char) : Except PolishError F64 :=
  if ops = ['+'] then Except.ok (F64.add a b)
  else if ops = ['-'] then Except.ok (F64.sub a b)
  else if ops = ['*'] then Except.ok (F64.mul a b)
  else if ops = ['/'] then Except.ok (F64.div a b)
  else if ops = ['%'] then Except.ok (F64.rem a b)
  else Except.error PolishError.FailedCalculate

/-- Rust `split_whitespace`: accumulator-based splitter; `acc` holds the
current token reversed. -/
def splitWhitespaceAux : List Char → List Char → List (List Char)
  | [], acc => if acc = [] then [] else [acc.reverse]
  | c :: cs, acc =>
      if c.isWhitespace then
        if acc = [] then splitWhitespaceAux cs []
        else acc.reverse :: splitWhitespaceAux cs []
      else splitWhitespaceAux cs (c :: acc)

/-- `expression.split_whitespace()` of src/lib.rs (line 118). -/
def splitWhitespace (s : List Char) : List (List Char) :=
  splitWhitespaceAux s []

/-- The token loop of `pn` (src/lib.rs lines 121-152) over the reversed
token list: operands are pushed; an operator first requires two stacked
values (`NotEnoughOperands` otherwise), then `calculate` combines the two
most recently pushed values (head = most recent) and the result replaces
them. -/
def pnLoop : List (List Char) → List F64 → Except PolishError (List F64)
  | [], st => Except.ok st
  | tok :: rest, st =>
      match parse_token tok with
      | Except.error e => Except.error e
      | Except.ok (TokenKind.Operand v) => pnLoop rest (v :: st)
      | Except.ok (TokenKind.Operator o) =>
          match st with
          | a :: b :: tail =>
              match calculate a b o with
              | Except.ok r => pnLoop rest (r :: tail)
              | Except.error e => Except.error e
          | _ => Except.error PolishError.NotEnoughOperands

/-- `pn` of src/lib.rs (lines 112-159): validation, reverse token
iteration, and the final stack-size check (exactly one value on the
stack, which is returned; else `FailedCalculate`). -/
def pn (expression : List Char) : Except PolishError F64 :=
  match validate expression with
  | Except.error e => Except.error e
  | Except.ok _ =>
      match pnLoop (splitWhitespace expression).reverse [] with
      | Except.error e => Except.error e
      | Except.ok operands =>
          match operands with
          | [v] => Except.ok v
          | _ => Except.error PolishError.FailedCalculate

/-- The five operator symbols `calculate` recognizes, as tokens. -/
def opSymbols : List (List Char) := [['+'], ['-'], ['*'], ['/'], ['%']]

/-- A Polish-form expression tree: a leaf is one numeric token, a node is
an operator token applied to two subexpressions. -/
inductive PNExpr where
  | lit (tok : List Char)
  | node (op : List Char) (l : PNExpr) (r : PNExpr)

/-- Token sequence of an expression tree, operator first. -/
def PNExpr.tokens : PNExpr → List (List Char)
  | PNExpr.lit t => [t]
  | PNExpr.node o l r => o :: (PNExpr.tokens l ++ PNExpr.tokens r)

/-- Semantics of a recognized operator symbol, left operand first; this
is the `Ok` value `calculate` returns on the five symbols. -/
def applyOp (o : List Char) (a b : F64) : F64 :=
  if o = ['+'] then F64.add a b
  else if o = ['-'] then F64.sub a b
  else if o = ['*'] then F64.mul a b
  else if o = ['/'] then F64.div a b
  else if o = ['%'] then F64.rem a b
  else F64.nan

/-- Standard Polish-form reduction value of an expression tree: a leaf
denotes its parsed numeric value; a node applies its operator with the
left subexpression as left operand. -/
def PNExpr.denote : PNExpr → F64
  | PNExpr.lit t =>
      match parseF64 t with
      | some v => v
      | none => F64.nan
  | PNExpr.node o l r => applyOp o (PNExpr.denote l) (PNExpr.denote r)

/-- Well-formed expression tree: every leaf token parses as a number and
uses only available characters, every operator token is one of the five
recognized symbols. -/
inductive PNExpr.WF : PNExpr → Prop where
  | lit : ∀ t v, parseF64 t = some v → is_unavailable_character t = false →
      PNExpr.WF (PNExpr.lit t)
  | node : ∀ o l r, o ∈ opSymbols → PNExpr.WF l → PNExpr.WF r →
      PNExpr.WF (PNExpr.node o l r)

/-- The allowed-character set as the specification words it: the five
operator symbols, the ten digits and the space, with no caret — written
from the spec's §4.1 sentence, to be compared with `availableChar`, the
set the source's regex actually admits. -/
def specAllowedChar (c : Char) : Bool :=
  ['+', '-', '*', '/', '%', '1', '2', '3', '4', '5', '6', '7', '8', '9',
    '0', ' '].contains c

/-! Helper lemmas. -/

theorem is_unavailable_iff (s : List Char) :
    is_unavailable_character s = true ↔ ∃ c ∈ s, availableChar c = false := by
  simp [is_unavailable_character, List.any_eq_true]

theorem validate_of_ne_nil (s : List Char) (h1 : s ≠ [])
    (h2 : is_unavailable_character s = false) :
    validate s = Except.ok () := by
  have he : s.isEmpty = false := by
    cases s with
    | nil => exact absurd rfl h1
    | cons a t => rfl
  simp [validate, is_exoression, he, h2]

theorem validate_of_bad_char (s : List Char) (h1 : s ≠ [])
    (h2 : is_unavailable_character s = true) :
    validate s = Except.error PolishError.UseUnavailableCharacter := by
  have he : s.isEmpty = false := by
    cases s with
    | nil => exact absurd rfl h1
    | cons a t => rfl
  simp [validate, is_exoression, he, h2]

theorem parse_token_of_op (o : List Char) (ho : o ∈ opSymbols) :
    parse_token o = Except.ok (TokenKind.Operator o) := by
  simp only [opSymbols, List.mem_cons, List.not_mem_nil, or_false] at ho
  rcases ho with h | h | h | h | h <;> subst h <;> rfl

theorem calculate_of_op (o : List Char) (ho : o ∈ opSymbols) (a b : F64) :
    calculate a b o = Except.ok (applyOp o a b) := by
  simp only [opSymbols, List.mem_cons, List.not_mem_nil, or_false] at ho
  rcases ho with h | h | h | h | h <;> subst h <;> rfl

theorem calculate_of_unknown (o : List Char) (ho : o ∉ opSymbols) (a b : F64) :
    calculate a b o = Except.error PolishError.FailedCalculate := by
  simp only [opSymbols, List.mem_cons, List.not_mem_nil, or_false, not_or] at ho
  simp [calculate, ho.1, ho.2.1, ho.2.2.1, ho.2.2.2.1, ho.2.2.2.2]

theorem calculate_error_eq (a b : F64) (o : List Char) (e : PolishError)
    (h : calculate a b o = Except.error e) : e = PolishError.FailedCalculate := by
  unfold calculate at h
  split at h
  · cases h
  · split at h
    · cases h
    · split at h
      · cases h
      · split at h
        · cases h
        · split at h
          · cases h
          · exact (Except.error.inj h).symm

theorem parse_token_error_eq (w : List Char) (e : PolishError)
    (h : parse_token w = Except.error e) :
    e = PolishError.UseUnavailableCharacter ∧
      is_unavailable_character w = true := by
  unfold parse_token at h
  cases hp : parseF64 w with
  | some v => rw [hp] at h; cases h
  | none =>
      rw [hp] at h
      by_cases ha : is_unavailable_character w
      · simp [ha] at h
        exact ⟨h.symm, ha⟩
      · simp [ha] at h

theorem pnLoop_tokens_append (e : PNExpr) (hwf : PNExpr.WF e) :
    ∀ (rest : List (List Char)) (st : List F64),
      pnLoop ((PNExpr.tokens e).reverse ++ rest) st =
        pnLoop rest (PNExpr.denote e :: st) := by
  induction hwf with
  | lit t v hp hav =>
      intro rest st
      simp [PNExpr.tokens, PNExpr.denote, pnLoop, parse_token, hp]
  | node o l r ho hl hr ihl ihr =>
      intro rest st
      have hrev : (PNExpr.tokens (PNExpr.node o l r)).reverse ++ rest =
          (PNExpr.tokens r).reverse ++
            ((PNExpr.tokens l).reverse ++ (o :: rest)) := by
        simp [PNExpr.tokens]
      rw [hrev, ihr, ihl]
      simp [pnLoop, parse_token_of_op o ho, calculate_of_op o ho,
        PNExpr.denote]

theorem pnLoop_error_cases :
    ∀ (ts : List (List Char)) (st : List F64) (e : PolishError),
      pnLoop ts st = Except.error e →
        e = PolishError.NotEnoughOperands ∨
        e = PolishError.FailedCalculate ∨
        (e = PolishError.UseUnavailableCharacter ∧
          ∃ t ∈ ts, is_unavailable_character t = true) := by
  intro ts
  induction ts with
  | nil => intro st e h; cases h
  | cons t rest ih =>
      intro st e h
      rw [pnLoop] at h
      cases hp : parse_token t with
      | error e0 =>
          rw [hp] at h
          have := parse_token_error_eq t e0 hp
          refine Or.inr (Or.inr ⟨?_, t, by simp, this.2⟩)
          rw [← Except.error.inj h, this.1]
      | ok k =>
          rw [hp] at h
          cases k with
          | Operand v =>
              rcases ih (v :: st) e h with h1 | h1 | ⟨h1, u, hu, hbad⟩
              · exact Or.inl h1
              · exact Or.inr (Or.inl h1)
              · exact Or.inr (Or.inr ⟨h1, u, by simp [hu], hbad⟩)
          | Operator o =>
              cases st with
              | nil => exact Or.inl (Except.error.inj h).symm
              | cons a st2 =>
                  cases st2 with
                  | nil => exact Or.inl (Except.error.inj h).symm
                  | cons b tail =>
                      cases hc : calculate a b o with
                      | ok r =>
                          simp only [hc] at h
                          rcases ih (r :: tail) e h with h1 | h1 | ⟨h1, u, hu, hbad⟩
                          · exact Or.inl h1
                          · exact Or.inr (Or.inl h1)
                          · exact Or.inr (Or.inr ⟨h1, u, by simp [hu], hbad⟩)
                      | error e0 =>
                          simp only [hc] at h
                          refine Or.inr (Or.inl ?_)
                          rw [← Except.error.inj h,
                            calculate_error_eq a b o e0 hc]

theorem splitWhitespaceAux_subset :
    ∀ (s acc t : List Char), t ∈ splitWhitespaceAux s acc →
      ∀ c ∈ t, c ∈ s ∨ c ∈ acc := by
  intro s
  induction s with
  | nil =>
      intro acc t ht c hc
      by_cases h : acc = ([] : List Char)
      · simp [splitWhitespaceAux, h] at ht
      · simp [splitWhitespaceAux, h] at ht
        subst ht
        exact Or.inr (by simpa using hc)
  | cons a s ih =>
      intro acc t ht c hc
      by_cases hw : a.isWhitespace
      · by_cases h : acc = ([] : List Char)
        · rw [splitWhitespaceAux, if_pos hw, if_pos h] at ht
          rcases ih [] t ht c hc with hs | hs
          · exact Or.inl (by simp [hs])
          · simp at hs
        · rw [splitWhitespaceAux, if_pos hw, if_neg h] at ht
          rcases List.mem_cons.mp ht with rfl | ht2
          · exact Or.inr (by simpa using hc)
          · rcases ih [] t ht2 c hc with hs | hs
            · exact Or.inl (by simp [hs])
            · simp at hs
      · rw [splitWhitespaceAux, if_neg hw] at ht
        rcases ih (a :: acc) t ht c hc with hs | hs
        · exact Or.inl (by simp [hs])
        · rcases List.mem_cons.mp hs with rfl | hs2
          · exact Or.inl (by simp)
          · exact Or.inr hs2

theorem splitWhitespace_tokens_available (s : List Char)
    (hs : is_unavailable_character s = false) :
    ∀ t ∈ splitWhitespace s, is_unavailable_character t = false := by
  intro t ht
  by_contra hbad
  rw [Bool.not_eq_false, is_unavailable_iff] at hbad
  rcases hbad with ⟨c, hc, hcbad⟩
  rcases splitWhitespaceAux_subset s [] t ht c hc with hcs | hcs
  · have : is_unavailable_character s = true :=
      (is_unavailable_iff s).mpr ⟨c, hcs, hcbad⟩
    rw [this] at hs
    cases hs
  · simp at hcs

theorem splitWhitespaceAux_all_spaces :
    ∀ s : List Char, (∀ c ∈ s, c = ' ') → splitWhitespaceAux s [] = [] := by
  intro s
  induction s with
  | nil => intro _; rfl
  | cons a s ih =>
      intro h
      have ha : a = ' ' := h a (by simp)
      subst ha
      rw [splitWhitespaceAux, if_pos (by with_unfolding_all decide), if_pos rfl]
      exact ih (fun c hc => h c (by simp [hc]))

/-! Claim theorems. -/

/-- C1: for every well-formed Polish-form expression (operator tokens
from the five recognized symbols, numeric operand tokens over the
available characters), an input string that splits into exactly its
tokens and passes validation evaluates under `pn` to `Ok` of the single
value of standard Polish-form reduction, where each operator takes the
most recently pushed stack value as its left operand and the value
pushed just before it as its right operand (this is `PNExpr.denote`). -/
theorem pn_wellformed_eval (e : PNExpr) (s : List Char) (hwf : PNExpr.WF e)
    (hsplit : splitWhitespace s = PNExpr.tokens e)
    (hval : validate s = Except.ok ()) :
    pn s = Except.ok (PNExpr.denote e) := by
  simp only [pn, hval, hsplit]
  have h := pnLoop_tokens_append e hwf [] []
  rw [List.append_nil] at h
  rw [h]
  rfl

/-- Witness for C1 at the input `"+ 5 2"`. -/
theorem pn_wellformed_eval_witness :
    pn (("+ 5 2").toList) = Except.ok (F64.fin 7) := by
  have h := pn_wellformed_eval
    (PNExpr.node ['+'] (PNExpr.lit ['5']) (PNExpr.lit ['2']))
    (("+ 5 2").toList)
    (PNExpr.WF.node ['+'] _ _ (by with_unfolding_all decide)
      (PNExpr.WF.lit ['5'] (F64.fin 5) (by with_unfolding_all decide) (by with_unfolding_all decide))
      (PNExpr.WF.lit ['2'] (F64.fin 2) (by with_unfolding_all decide) (by with_unfolding_all decide)))
    (by with_unfolding_all decide) (by with_unfolding_all decide)
  rw [h]
  with_unfolding_all decide

/-- C2, counterexample: the claim's allowed-character set (the spec's
§4.1 words, `specAllowedChar`) omits the caret, but the source regex
admits it: the input `"^"` is non-empty and contains a character outside
the claimed set, yet `pn` does not fail with `UseUnavailableCharacter`
(it fails with `NotEnoughOperands`). -/
theorem pn_char_error_spec_counterexample :
    ("^").toList ≠ [] ∧
    (∃ c ∈ ("^").toList, specAllowedChar c = false) ∧
    pn (("^").toList) ≠ Except.error PolishError.UseUnavailableCharacter := by
  refine ⟨by with_unfolding_all decide, by with_unfolding_all decide, by with_unfolding_all decide⟩

/-- C2, amended: for every non-empty input, `pn` fails with
`UseUnavailableCharacter` exactly when the string contains a character
outside the set the validator regex admits — the five operator symbols,
the caret, the ten digits and the space (`availableChar`); the check
covers the whole raw string including spaces, and the decimal point is
not in the allowed set. -/
theorem pn_char_error_iff (s : List Char) (hne : s ≠ []) :
    pn s = Except.error PolishError.UseUnavailableCharacter ↔
      ∃ c ∈ s, availableChar c = false := by
  constructor
  · intro h
    by_contra hno
    have hav : is_unavailable_character s = false := by
      rw [← Bool.not_eq_true, is_unavailable_iff]
      exact hno
    have hv := validate_of_ne_nil s hne hav
    simp only [pn, hv] at h
    cases hloop : pnLoop (splitWhitespace s).reverse [] with
    | error e =>
        rw [hloop] at h
        have he : e = PolishError.UseUnavailableCharacter := Except.error.inj h
        subst he
        rcases pnLoop_error_cases _ _ _ hloop with h1 | h1 | ⟨h1, t, ht, hbad⟩
        · cases h1
        · cases h1
        · have ht2 : t ∈ splitWhitespace s := by
            rw [← List.mem_reverse]
            exact ht
          rw [splitWhitespace_tokens_available s hav t ht2] at hbad
          cases hbad
    | ok st =>
        rw [hloop] at h
        cases st with
        | nil => cases h
        | cons a st2 =>
            cases st2 with
            | nil => cases h
            | cons b st3 => cases h
  · intro hex
    have hbad : is_unavailable_character s = true :=
      (is_unavailable_iff s).mpr hex
    simp [pn, validate_of_bad_char s hne hbad]

/-- Witness for the amended C2 at the input `"["`. -/
theorem pn_char_error_iff_witness :
    pn (("[").toList) = Except.error PolishError.UseUnavailableCharacter :=
  (pn_char_error_iff (("[").toList) (by with_unfolding_all decide)).mpr (by with_unfolding_all decide)

/-- C3: on an input that passes validation, once the token loop has
consumed all tokens with final stack `st`, `pn` succeeds exactly when
`st` holds a single value, returning it; any other final count gives
`FailedCalculate` — in particular `pn "5 2"`, which leaves two values. -/
theorem pn_final_stack_check (s : List Char) (st : List F64)
    (hval : validate s = Except.ok ())
    (hloop : pnLoop (splitWhitespace s).reverse [] = Except.ok st) :
    ((∀ v, st = [v] → pn s = Except.ok v) ∧
      (st.length ≠ 1 → pn s = Except.error PolishError.FailedCalculate)) ∧
    pn (("5 2").toList) = Except.error PolishError.FailedCalculate := by
  refine ⟨⟨?_, ?_⟩, by with_unfolding_all decide⟩
  · intro v hv
    subst hv
    simp [pn, hval, hloop]
  · intro hlen
    cases st with
    | nil => simp [pn, hval, hloop]
    | cons a st2 =>
        cases st2 with
        | nil => simp at hlen
        | cons b st3 => simp [pn, hval, hloop]

/-- Witness for C3 at the input `"5 2"`, whose loop leaves two values. -/
theorem pn_final_stack_check_witness :
    pn (("5 2").toList) = Except.error PolishError.FailedCalculate :=
  ((pn_final_stack_check (("5 2").toList) [F64.fin 5, F64.fin 2]
    (by with_unfolding_all decide) (by with_unfolding_all decide)).1.2) (by with_unfolding_all decide)

/-- C4: division and modulo never produce an error — `calculate` returns
`Ok` for every pair of operands under `/` and `%`, with no zero-check —
and they follow the floating-point special-value rules: `5 / 0` is
positive infinity, `5 % 0` is `nan`, and `pn "/ 5 0"` returns
`Ok` of positive infinity. -/
theorem pn_division_modulo_by_zero :
    (∀ a b : F64, ∃ v, calculate a b ['/'] = Except.ok v) ∧
    (∀ a b : F64, ∃ v, calculate a b ['%'] = Except.ok v) ∧
    calculate (F64.fin 5) (F64.fin 0) ['/'] = Except.ok F64.inf ∧
    calculate (F64.fin 5) (F64.fin 0) ['%'] = Except.ok F64.nan ∧
    pn (("/ 5 0").toList) = Except.ok F64.inf :=
  ⟨fun a b => ⟨F64.div a b, rfl⟩, fun a b => ⟨F64.rem a b, rfl⟩,
    by with_unfolding_all decide, by with_unfolding_all decide, by with_unfolding_all decide⟩

/-- C5: whenever an operator token is reached with fewer than two values
on the stack, the loop fails at once with `NotEnoughOperands`, for every
operator token — recognized or not, so before any symbol recognition or
arithmetic; in particular `pn "* + 5 1 - 7"` is `NotEnoughOperands`. -/
theorem pn_not_enough_operands
    (tok o : List Char) (rest : List (List Char)) (st : List F64)
    (hp : parse_token tok = Except.ok (TokenKind.Operator o))
    (hlen : st.length < 2) :
    pnLoop (tok :: rest) st = Except.error PolishError.NotEnoughOperands ∧
    pn (("* + 5 1 - 7").toList) =
      Except.error PolishError.NotEnoughOperands := by
  refine ⟨?_, by with_unfolding_all decide⟩
  cases st with
  | nil => simp [pnLoop, hp]
  | cons a st2 =>
      cases st2 with
      | nil => simp [pnLoop, hp]
      | cons b st3 =>
          simp at hlen
          omega

/-- Witness for C5 with the operator token `"-"` on an empty stack. -/
theorem pn_not_enough_operands_witness :
    pnLoop [['-']] [] = Except.error PolishError.NotEnoughOperands :=
  (pn_not_enough_operands ['-'] ['-'] [] [] (by with_unfolding_all decide) (by with_unfolding_all decide)).1

/-- C6: a token of available characters that fails numeric parsing is
classified as an operator; a symbol outside the five recognized ones
makes `calculate` fail with `FailedCalculate`, so when such a symbol
reaches the combine step with two operands available the loop fails with
`FailedCalculate`; in particular `pn "++ 5 2"` is `FailedCalculate`. -/
theorem pn_unknown_operator :
    (∀ t : List Char, is_unavailable_character t = false →
        parseF64 t = none →
        parse_token t = Except.ok (TokenKind.Operator t)) ∧
    (∀ (o : List Char) (a b : F64), o ∉ opSymbols →
        calculate a b o = Except.error PolishError.FailedCalculate) ∧
    (∀ (o : List Char) (a b : F64) (tail : List F64)
        (rest : List (List Char)), o ∉ opSymbols →
        parse_token o = Except.ok (TokenKind.Operator o) →
        pnLoop (o :: rest) (a :: b :: tail) =
          Except.error PolishError.FailedCalculate) ∧
    pn (("++ 5 2").toList) = Except.error PolishError.FailedCalculate := by
  refine ⟨?_, ?_, ?_, by with_unfolding_all decide⟩
  · intro t hav hp
    simp [parse_token, hp, hav]
  · intro o a b ho
    exact calculate_of_unknown o ho a b
  · intro o a b tail rest ho hp
    simp [pnLoop, hp, calculate_of_unknown o ho a b]

/-- Witness for C6 with the token `"++"`. -/
theorem pn_unknown_operator_witness :
    parse_token ['+', '+'] = Except.ok (TokenKind.Operator ['+', '+']) :=
  pn_unknown_operator.1 ['+', '+'] (by with_unfolding_all decide) (by with_unfolding_all decide)

/-- C7: `pn` fails with `NotEnteredExoression` exactly on the empty
string (zero length, not merely whitespace-only); the emptiness test is
the first branch of validation (`validate []` already yields it), and
`pn ""` returns it. -/
theorem pn_empty_input_iff :
    (∀ s : List Char,
        pn s = Except.error PolishError.NotEnteredExoression ↔ s = []) ∧
    validate [] = Except.error PolishError.NotEnteredExoression ∧
    pn (("").toList) = Except.error PolishError.NotEnteredExoression := by
  refine ⟨?_, by with_unfolding_all decide, by with_unfolding_all decide⟩
  intro s
  constructor
  · intro h
    cases hs : s with
    | nil => rfl
    | cons a t =>
        exfalso
        subst hs
        by_cases hbad : is_unavailable_character (a :: t)
        · rw [pn, validate_of_bad_char (a :: t) (by simp) hbad] at h
          cases h
        · rw [pn, validate_of_ne_nil (a :: t) (by simp)
            (by simpa using hbad)] at h
          cases hloop : pnLoop (splitWhitespace (a :: t)).reverse [] with
          | error e =>
              rw [hloop] at h
              have he := Except.error.inj h
              subst he
              rcases pnLoop_error_cases _ _ _ hloop with h1 | h1 | ⟨h1, _⟩
              · cases h1
              · cases h1
              · cases h1
          | ok st =>
              rw [hloop] at h
              cases st with
              | nil => cases h
              | cons x st2 =>
                  cases st2 with
                  | nil => cases h
                  | cons y st3 => cases h
  · intro h
    subst h
    decide

/-- C8: the five operators on the sample inputs, and single-operand
inputs evaluating to themselves. -/
theorem pn_basic_results :
    pn (("+ 5 2").toList) = Except.ok (F64.fin 7) ∧
    pn (("- 5 2").toList) = Except.ok (F64.fin 3) ∧
    pn (("* 5 2").toList) = Except.ok (F64.fin 10) ∧
    pn (("/ 5 2").toList) = Except.ok (F64.fin (5 / 2 : ℚ)) ∧
    pn (("% 5 2").toList) = Except.ok (F64.fin 1) ∧
    pn (("1").toList) = Except.ok (F64.fin 1) ∧
    pn (("-1").toList) = Except.ok (F64.fin (-1)) := by
  refine ⟨by with_unfolding_all decide, by with_unfolding_all decide, by with_unfolding_all decide, by with_unfolding_all decide, by with_unfolding_all decide,
    by with_unfolding_all decide, by with_unfolding_all decide⟩

/-- C9: the `Display` mapping sends each error kind to its fixed
message, preserving the source's spelling of the last one. -/
theorem pn_display_messages :
    PolishError.display PolishError.FailedCalculate = "failed calculate" ∧
    PolishError.display PolishError.NotEnoughOperands =
      "not enough operands" ∧
    PolishError.display PolishError.UseUnavailableCharacter =
      "use unavailable character" ∧
    PolishError.display PolishError.NotEnteredExoression =
      "not entered exoression" :=
  ⟨rfl, rfl, rfl, rfl⟩

/-- C10: a non-empty input consisting only of spaces (the only
whitespace in the available set) passes validation, splits into no
tokens, and the empty final stack makes `pn` fail with
`FailedCalculate`, not `NotEnteredExoression`. -/
theorem pn_whitespace_only_input (s : List Char) (hne : s ≠ [])
    (hsp : ∀ c ∈ s, c = ' ') :
    pn s = Except.error PolishError.FailedCalculate ∧
    pn s ≠ Except.error PolishError.NotEnteredExoression := by
  have hav : is_unavailable_character s = false := by
    rw [← Bool.not_eq_true, is_unavailable_iff]
    rintro ⟨c, hc, hbad⟩
    rw [hsp c hc] at hbad
    cases hbad
  have hv := validate_of_ne_nil s hne hav
  have hsplit : splitWhitespace s = [] := splitWhitespaceAux_all_spaces s hsp
  constructor
  · simp [pn, hv, hsplit, pnLoop]
  · simp [pn, hv, hsplit, pnLoop]

/-- Witness for C10 at the one-space input `" "`. -/
theorem pn_whitespace_only_input_witness :
    pn ((" ").toList) = Except.error PolishError.FailedCalculate :=
  (pn_whitespace_only_input ((" ").toList) (by with_unfolding_all decide) (by with_unfolding_all decide)).1

end Polish
